import Mathlib

/-!
Shallow embedding of `src/arco_era5/update_config_files.py` (ARCO-ERA5
configuration-file maintenance utility) and proofs about it.

Python's `datetime.date` is embedded as a `year/month/day` record over `Nat`
with the proleptic Gregorian calendar rules (`isLeap`, `daysInMonth`).
Subtraction of a `timedelta` of `k` whole days is embedded as `k` iterations
of the one-day-back step `prevDay`.  `str(date)` / `date.isoformat()` is
embedded as `isoString` (zero-padded `YYYY-MM-DD`, the exact output of
CPython for the valid year range 1..9999).
-/

set_option maxRecDepth 8000

namespace ArcoEra5

/-- Embedding of `datetime.date`: a plain year/month/day record. -/
structure Date where
  year : Nat
  month : Nat
  day : Nat
deriving DecidableEq, Repr

/-- Gregorian leap-year rule, as used by `datetime.date`. -/
def isLeap (y : Nat) : Bool :=
  y % 4 == 0 && (y % 100 != 0 || y % 400 == 0)

/-- Number of days in month `m` of year `y` (Gregorian calendar). -/
def daysInMonth (y m : Nat) : Nat :=
  if m = 2 then (if isLeap y then 29 else 28)
  else if m = 4 ∨ m = 6 ∨ m = 9 ∨ m = 11 then 30
  else 31

/-- A `Date` that `datetime.date` would accept. -/
def Date.Valid (d : Date) : Prop :=
  1 ≤ d.year ∧ d.year ≤ 9999 ∧ 1 ≤ d.month ∧ d.month ≤ 12 ∧
    1 ≤ d.day ∧ d.day ≤ daysInMonth d.year d.month

instance (d : Date) : Decidable d.Valid := by
  unfold Date.Valid; infer_instance

/-- One day back (`date - timedelta(days=1)`). -/
def prevDay (d : Date) : Date :=
  if 1 < d.day then { d with day := d.day - 1 }
  else if 1 < d.month then
    { year := d.year, month := d.month - 1, day := daysInMonth d.year (d.month - 1) }
  else
    { year := d.year - 1, month := 12, day := 31 }

/-- `date - timedelta(days=k)`, as `k` one-day steps. -/
def subDays (d : Date) : Nat → Date
  | 0 => d
  | k + 1 => prevDay (subDays d k)

/-- Embedding of `get_month_range`: `last_day = date.replace(day=1) -
timedelta(days=1)`, `first_day = last_day.replace(day=1)`; returns the
previous month's first and last day. -/
def getMonthRange (date : Date) : Date × Date :=
  let last_day := prevDay { date with day := 1 }
  let first_day := { last_day with day := 1 }
  (first_day, last_day)

/-- Decimal digit character (`0`..`9`); total, with every out-of-range
input mapped to `9` (never reached on the inputs produced by `% 10`). -/
def digitChar (n : Nat) : Char :=
  if n = 0 then '0' else if n = 1 then '1' else if n = 2 then '2'
  else if n = 3 then '3' else if n = 4 then '4' else if n = 5 then '5'
  else if n = 6 then '6' else if n = 7 then '7' else if n = 8 then '8'
  else '9'

/-- Fuelled worker for `natChars` (the fuel makes the recursion structural,
so that the kernel can evaluate it; `fuel = n + 1` always suffices since the
argument shrinks at least tenfold per step). -/
def natCharsAux : Nat → Nat → List Char
  | 0, _ => []
  | fuel + 1, n =>
    if n < 10 then [digitChar n]
    else natCharsAux fuel (n / 10) ++ [digitChar (n % 10)]

/-- Decimal representation of a natural number, as Python's `str`/`repr`
renders it (no leading zeros, `0` for zero). -/
def natChars (n : Nat) : List Char := natCharsAux (n + 1) n

/-- Python `str(n)` for a natural number. -/
def natStr (n : Nat) : String := ⟨natChars n⟩

/-- Exactly four decimal digits, zero padded: `f"{n:04d}"` for `n ≤ 9999`. -/
def pad4 (n : Nat) : List Char :=
  [digitChar (n / 1000 % 10), digitChar (n / 100 % 10),
   digitChar (n / 10 % 10), digitChar (n % 10)]

/-- Exactly two decimal digits, zero padded: `f"{n:02d}"` for `n ≤ 99`. -/
def pad2 (n : Nat) : List Char :=
  [digitChar (n / 10 % 10), digitChar (n % 10)]

/-- `str(d)` / `d.isoformat()` for a `datetime.date`: zero-padded
`YYYY-MM-DD` (CPython renders exactly this for every valid date, whose year
is at most 9999). -/
def isoString (d : Date) : String :=
  ⟨pad4 d.year ++ '-' :: (pad2 d.month ++ '-' :: pad2 d.day)⟩

/-- Python string slice `s[a:b]` (for `0 ≤ a ≤ b`). -/
def pySlice (s : String) (a b : Nat) : String :=
  ⟨(s.data.drop a).take (b - a)⟩

/-- Result record of `get_previous_month_dates` (`MonthDates`). -/
structure MonthDates where
  first_day : Date
  last_day : Date
  sl_year : String
  sl_month : String
deriving DecidableEq, Repr

/-- Mode string for `ExecTypes.ERA5.value`.  Modelled from the spec: the
`ExecTypes` enum lives in `.utils`, which is not part of the sources; the
spec names the variants `ERA5`, `ERA5T_DAILY`, `ERA5T_MONTHLY`. -/
def modeERA5 : String := "ERA5"

/-- Mode string for `ExecTypes.ERA5T_DAILY.value` (modelled from the spec,
see `modeERA5`). -/
def modeERA5TDaily : String := "ERA5T_DAILY"

/-- Mode string for `ExecTypes.ERA5T_MONTHLY.value` (modelled from the spec,
see `modeERA5`). -/
def modeERA5TMonthly : String := "ERA5T_MONTHLY"

/-- Embedding of `get_previous_month_dates`, with `datetime.date.today()`
made an explicit parameter `today`.  `2*366/12` is Python float division,
evaluating to `61.0`, so the `ERA5` branch subtracts exactly 61 days. -/
def getPreviousMonthDates (mode : String) (today : Date) : MonthDates :=
  let (first_day, last_day) :=
    if mode = modeERA5TDaily then
      let third_prev_month := subDays today 6
      (third_prev_month, third_prev_month)
    else if mode = modeERA5TMonthly then
      let third_prev_month := today
      getMonthRange third_prev_month
    else
      let third_prev_month := subDays today 61
      getMonthRange third_prev_month
  { first_day := first_day
    last_day := last_day
    sl_year := pySlice (isoString first_day) 0 4
    sl_month := pySlice (isoString first_day) 5 7 }

/-! ## Python string primitives

`str.split(sep)` (non-empty separator), `str.strip()` and substring
membership (`chunk in filename`) are embedded at the character-list level. -/

/-- Whitespace characters stripped by Python's `str.strip()`. -/
def pyIsSpace (c : Char) : Bool :=
  c = ' ' || c = '\t' || c = '\n' || c = '\r' || c = '\x0b' || c = '\x0c'

/-- Python `str.strip()`: drop whitespace from both ends. -/
def pyStripL (l : List Char) : List Char :=
  ((l.dropWhile pyIsSpace).reverse.dropWhile pyIsSpace).reverse

/-- Python `str.strip()` on strings. -/
def pyStrip (s : String) : String := ⟨pyStripL s.data⟩

/-- Worker for Python `str.split(sep)` with non-empty separator
`s0 :: stail`: scan left to right, cutting at each leftmost occurrence of
the separator.  `acc` holds the characters of the current segment; `skip`
counts separator characters still to be consumed after a cut (so the
recursion is structural in the scanned list). -/
def pySplitGo (s0 : Char) (stail : List Char) :
    List Char → Nat → List Char → List (List Char)
  | [], _, acc => [acc]
  | _ :: rest, skip + 1, acc => pySplitGo s0 stail rest skip acc
  | c :: rest, 0, acc =>
    if (s0 :: stail).isPrefixOf (c :: rest) then
      acc :: pySplitGo s0 stail rest stail.length []
    else
      pySplitGo s0 stail rest 0 (acc ++ [c])

/-- Python `s.split(sep)` for a non-empty separator. -/
def pySplit (s sep : String) : List String :=
  match sep.data with
  | [] => [s]
  | s0 :: stail => (pySplitGo s0 stail s.data 0 []).map fun l => ⟨l⟩

/-- Substring occurrence test on character lists. -/
def listInfix : List Char → List Char → Bool
  | needle, [] => needle.isEmpty
  | needle, c :: rest => needle.isPrefixOf (c :: rest) || listInfix needle rest

/-- Python `chunk in s` substring test. -/
def pyContains (s chunk : String) : Bool :=
  listInfix chunk.data s.data

/-- ASCII lower-casing of one character (all option names appearing in this
program are ASCII, so this matches Python's `str.lower` on them). -/
def lowerChar : Char → Char
  | 'A' => 'a' | 'B' => 'b' | 'C' => 'c' | 'D' => 'd' | 'E' => 'e'
  | 'F' => 'f' | 'G' => 'g' | 'H' => 'h' | 'I' => 'i' | 'J' => 'j'
  | 'K' => 'k' | 'L' => 'l' | 'M' => 'm' | 'N' => 'n' | 'O' => 'o'
  | 'P' => 'p' | 'Q' => 'q' | 'R' => 'r' | 'S' => 's' | 'T' => 't'
  | 'U' => 'u' | 'V' => 'v' | 'W' => 'w' | 'X' => 'x' | 'Y' => 'y'
  | 'Z' => 'z' | c => c

/-- Python `str.lower()` (`configparser`'s default `optionxform`). -/
def pyLower (s : String) : String := ⟨s.data.map lowerChar⟩

/-! ## Config model

`configparser.ConfigParser(interpolation=None)` state: an ordered list of
sections, each an ordered list of `(option, value)` entries.  Option names
are lower-cased on every access (`optionxform`); section names are
case-sensitive.  `add_section` refuses duplicates, `set`/`get` require the
section to exist, `remove_section` drops the section when present. -/

/-- One `[section]` of a parsed config file. -/
structure CfgSection where
  name : String
  entries : List (String × String)
deriving DecidableEq, Repr

/-- In-memory `ConfigParser` state. -/
abbrev Config := List CfgSection

/-- Errors surfaced by the embedded `configparser`/Python operations. -/
inductive CfgError where
  | noSectionError
  | noOptionError
  | duplicateSectionError
  | valueError
  | indexError
deriving DecidableEq, Repr

instance {ε α : Type} [DecidableEq ε] [DecidableEq α] :
    DecidableEq (Except ε α) := fun x y =>
  match x, y with
  | .ok a, .ok b =>
    if h : a = b then .isTrue (by rw [h])
    else .isFalse (fun hh => h (Except.ok.inj hh))
  | .error a, .error b =>
    if h : a = b then .isTrue (by rw [h])
    else .isFalse (fun hh => h (Except.error.inj hh))
  | .ok _, .error _ => .isFalse (fun hh => Except.noConfusion hh)
  | .error _, .ok _ => .isFalse (fun hh => Except.noConfusion hh)

/-- `config.has_section(name)`. -/
def hasSection (cfg : Config) (name : String) : Bool :=
  cfg.any fun s => s.name = name

/-- `config.add_section(name)`: appends an empty section, raising
`DuplicateSectionError` when one of that name already exists. -/
def addSection (cfg : Config) (name : String) : Except CfgError Config :=
  if hasSection cfg name then .error .duplicateSectionError
  else .ok (cfg ++ [⟨name, []⟩])

/-- Set option `key` in an entry list: overwrite the first occurrence in
place, or append when absent (ordered-dict semantics). -/
def setEntry (entries : List (String × String)) (key value : String) :
    List (String × String) :=
  match entries with
  | [] => [(key, value)]
  | (k, v) :: rest =>
    if k = key then (k, value) :: rest
    else (k, v) :: setEntry rest key value

/-- `config.set(section, key, value)`: updates the first section of that
name; `NoSectionError` when the section is missing.  The option name is
lower-cased (`optionxform`). -/
def setOpt (cfg : Config) (name key value : String) : Except CfgError Config :=
  match cfg with
  | [] => .error .noSectionError
  | s :: rest =>
    if s.name = name then
      .ok ({ s with entries := setEntry s.entries (pyLower key) value } :: rest)
    else do
      let rest' ← setOpt rest name key value
      .ok (s :: rest')

/-- Look up option `key` in an entry list (first match). -/
def getEntry (entries : List (String × String)) (key : String) :
    Option String :=
  match entries with
  | [] => none
  | (k, v) :: rest => if k = key then some v else getEntry rest key

/-- `config.get(section, key)`: `NoSectionError` / `NoOptionError` when the
section or option is missing.  The option name is lower-cased. -/
def getOpt (cfg : Config) (name key : String) : Except CfgError String :=
  match cfg with
  | [] => .error .noSectionError
  | s :: rest =>
    if s.name = name then
      match getEntry s.entries (pyLower key) with
      | some v => .ok v
      | none => .error .noOptionError
    else getOpt rest name key

/-- `config.remove_section(name)` (the removed-or-not boolean result is
unused by the program and dropped). -/
def removeSection (cfg : Config) (name : String) : Config :=
  cfg.filter fun s => s.name ≠ name

/-! ## `new_config_file` and the credential machinery -/

/-- Python `s.replace(old, new)` for a non-empty `old` (replace every
occurrence): split on `old` and re-join with `new`. -/
def pyReplace (s old new : String) : String :=
  String.intercalate new (pySplit s old)

/-- Python list indexing `l[i]`, raising `IndexError` when out of range. -/
def pyIndex (l : List String) (i : Nat) : Except CfgError String :=
  match l.get? i with
  | some x => .ok x
  | none => .error .indexError

/-- Two-element unpacking of `s.split("=")` (`a, b = s.split("=")`):
raises `ValueError` unless the split has exactly two parts. -/
def split2 (s : String) : Except CfgError (String × String) :=
  match pySplit s "=" with
  | [a, b] => .ok (a, b)
  | _ => .error .valueError

/-- One iteration of the credential-appending loop in `new_config_file`
(lines 110-117): split the segment into lines, add a section named by the
stripped first line, then parse `api_url` / `api_key` from the second and
third lines (split on `=`, strip key and value). -/
def addCredSection (cfg : Config) (seg : String) : Except CfgError Config := do
  let line0 ← pyIndex (pySplit seg "\n") 0
  let cfg1 ← addSection cfg (pyStrip line0)
  let line1 ← pyIndex (pySplit seg "\n") 1
  let url_kv ← split2 line1
  let cfg2 ← setOpt cfg1 (pyStrip line0) (pyStrip url_kv.1) (pyStrip url_kv.2)
  let line2 ← pyIndex (pySplit seg "\n") 2
  let key_kv ← split2 line2
  setOpt cfg2 (pyStrip line0) (pyStrip key_kv.1) (pyStrip key_kv.2)

/-- The credential-appending loop, over an explicit segment list. -/
def processSegs (cfg : Config) (segs : List String) : Except CfgError Config :=
  List.foldlM addCredSection cfg segs

/-- Lines 109-117 of `new_config_file`: split `additional_content` on blank
lines and append every segment but the last as a credential section. -/
def appendCredentials (cfg : Config) (additional_content : String) :
    Except CfgError Config :=
  processSegs cfg ((pySplit additional_content "\n\n").dropLast)

/-- The `ConfigArgs` dictionary passed to `new_config_file`. -/
structure ConfigArgs where
  year_wise_date : Bool
  first_day : Date
  last_day : Date
  sl_year : String
  sl_month : String
deriving DecidableEq, Repr

/-- Lines 97-99 of `new_config_file`: when `temp_path` is given, rewrite
`parameters.target_path`, replacing the public-bucket prefix. -/
def applyTempPath (cfg : Config) : Option String → Except CfgError Config
  | none => pure cfg
  | some tp => do
    let target_path ← getOpt cfg "parameters" "target_path"
    setOpt cfg "parameters" "target_path"
      (pyReplace target_path "gs://gcp-public-data-arco-era5/raw" tp)

/-- Lines 101-107 of `new_config_file`: write the year/month/day triple or
the single date-range field into the `selection` section. -/
def setSelection (cfg : Config) (field_name : String)
    (config_args : ConfigArgs) : Except CfgError Config :=
  if config_args.year_wise_date then do
    let cfg ← setOpt cfg "selection" "year" config_args.sl_year
    let cfg ← setOpt cfg "selection" "month" config_args.sl_month
    setOpt cfg "selection" "day" "all"
  else
    setOpt cfg "selection" field_name
      (isoString config_args.first_day ++ "/to/" ++
        isoString config_args.last_day)

/-- Embedding of `new_config_file`, acting on the parsed config (the
`config.read` / `config.write` file round-trip is the identity on this
structured state).  Any raised exception aborts the mutation, so the
caller keeps the unmodified config in that case. -/
def newConfigFile (cfg : Config) (field_name additional_content : String)
    (config_args : ConfigArgs) (temp_path : Option String) :
    Except CfgError Config := do
  let cfg ← applyTempPath cfg temp_path
  let cfg ← setSelection cfg field_name config_args
  appendCredentials cfg additional_content

/-- Section name `f'parameters.api{count}'`. -/
def apiName (count : Nat) : String := "parameters.api" ++ natStr count

/-- One credential block of `generate_additional_content`: the f-string
`'parameters.api{count}\n            api_url={url}\napi_key={key}\n\n'`
(the twelve spaces come from the backslash line continuation inside the
f-string literal). -/
def credBlock (count : Nat) (api_url api_key : String) : String :=
  apiName count ++ "\n            api_url=" ++ api_url ++
    "\napi_key=" ++ api_key ++ "\n\n"

/-- The accumulation loop of `generate_additional_content`, starting at
index `count`. -/
def genAdditionalAux : Nat → List (String × String) → String
  | _, [] => ""
  | count, (u, k) :: rest => credBlock count u k ++ genAdditionalAux (count + 1) rest

/-- Embedding of `generate_additional_content`, with the environment scan
plus secret-store resolution (`get_api_keys` / `get_secret`, both external
effects) made an explicit parameter: `secrets` lists the resolved
`(api_url, api_key)` pairs in environment iteration order. -/
def generateAdditionalContent (secrets : List (String × String)) : String :=
  genAdditionalAux 0 secrets

/-! ## `update_config_file` and license removal -/

/-- The `FILES_TO_UPDATE` table; `none` models the `KeyError` raised by
`FILES_TO_UPDATE[mode]` for an unknown mode. -/
def filesToUpdate (mode : String) : Option (List String) :=
  if mode = modeERA5 then
    some ["dve", "o3q", "qrqs", "tw", "pl", "sl", "lnsp", "zs", "sfc"]
  else if mode = modeERA5TDaily then
    some ["dve", "o3q", "qrqs", "tw", "pl", "sl"]
  else if mode = modeERA5TMonthly then
    some ["lnsp", "zs", "sfc"]
  else none

/-- Line 222 of `update_config_file`: a file name selects the
year/month/day form iff it contains `lnsp`, `zs` or `sfc`. -/
def isYearWise (filename : String) : Bool :=
  pyContains filename "lnsp" || pyContains filename "zs" ||
    pyContains filename "sfc"

/-- The `ConfigArgs` built by `update_config_file` for one file name. -/
def argsFor (filename : String) (dates : MonthDates) : ConfigArgs :=
  { year_wise_date := isYearWise filename
    first_day := dates.first_day
    last_day := dates.last_day
    sl_year := dates.sl_year
    sl_month := dates.sl_month }

/-- The per-file loop of `update_config_file` over the globbed list of
`(filename, parsed content)` pairs.  A file whose name matches no chunk is
skipped; a raised exception leaves the current file unwritten, aborts the
loop, and leaves all remaining files untouched (returned alongside the
error). -/
def runFiles (field_name additional_content : String) (dates : MonthDates)
    (files_to_update : List String) (temp_path : Option String) :
    List (String × Config) → List (String × Config) × Option CfgError
  | [] => ([], none)
  | (fn, cfg) :: rest =>
    if files_to_update.any (fun chunk => pyContains fn chunk) then
      match newConfigFile cfg field_name additional_content
          (argsFor fn dates) temp_path with
      | .ok cfg' =>
        ((fn, cfg') :: (runFiles field_name additional_content dates
            files_to_update temp_path rest).1,
          (runFiles field_name additional_content dates
            files_to_update temp_path rest).2)
      | .error e => ((fn, cfg) :: rest, some e)
    else
      ((fn, cfg) :: (runFiles field_name additional_content dates
          files_to_update temp_path rest).1,
        (runFiles field_name additional_content dates
          files_to_update temp_path rest).2)

/-- Embedding of `update_config_file`, with `today`, the resolved secrets
and the globbed file list as explicit parameters (`datetime.date.today()`,
the secret store and the filesystem are external).  Returns `none` on the
`KeyError` of an unknown mode. -/
def updateConfigFile (files : List (String × Config))
    (field_name mode : String) (temp_path : Option String) (today : Date)
    (secrets : List (String × String)) :
    Option (List (String × Config) × Option CfgError) :=
  match filesToUpdate mode with
  | none => none
  | some files_to_update =>
    some (runFiles field_name (generateAdditionalContent secrets)
      (getPreviousMonthDates mode today) files_to_update temp_path files)

/-- Embedding of `remove_license_from_config_file`: drop sections
`parameters.api0` .. `parameters.api(num_licenses-1)`. -/
def removeLicenseFromConfigFile (cfg : Config) (num_licenses : Nat) : Config :=
  (List.range num_licenses).foldl
    (fun c license_number => removeSection c (apiName license_number)) cfg

/-- The month/day facts preserved by stepping a date backwards (the year may
legitimately leave the `datetime.date` range in this model). -/
def DateWF (d : Date) : Prop := 1 ≤ d.month ∧ d.month ≤ 12 ∧ 1 ≤ d.day

/-- One credential block of `generate_additional_content` without its
trailing blank-line separator (the text between two separators, i.e. one
segment of the `split("\n\n")` performed by `new_config_file`). -/
def contentStr (count : Nat) (api_url api_key : String) : String :=
  apiName count ++ "\n            api_url=" ++ api_url ++ "\napi_key=" ++ api_key

/-- The list of separator-free segments of the credential text generated
for `secrets`, starting at index `count`. -/
def contentStrsFrom : Nat → List (String × String) → List String
  | _, [] => []
  | count, (u, k) :: rest => contentStr count u k :: contentStrsFrom (count + 1) rest

/-- The section name the appending loop derives from one segment: its
stripped first line. -/
def secName (seg : String) : String :=
  pyStrip ((pySplit seg "\n").headD "")

example :
    getPreviousMonthDates modeERA5TDaily ⟨2024, 3, 10⟩ =
      ⟨⟨2024, 3, 4⟩, ⟨2024, 3, 4⟩, "2024", "03"⟩ := by decide

example :
    getPreviousMonthDates modeERA5TMonthly ⟨2024, 3, 15⟩ =
      ⟨⟨2024, 2, 1⟩, ⟨2024, 2, 29⟩, "2024", "02"⟩ := by decide

example : subDays ⟨2024, 3, 10⟩ 61 = ⟨2024, 1, 9⟩ := by decide

example :
    getPreviousMonthDates modeERA5 ⟨2024, 3, 10⟩ =
      ⟨⟨2023, 12, 1⟩, ⟨2023, 12, 31⟩, "2023", "12"⟩ := by decide

example : pySplit "a\n\nb\n\n" "\n\n" = ["a", "b", ""] := by decide
example : pySplit "" "x" = [""] := by decide
example : pySplit "aaa" "aa" = ["", "a"] := by decide
example : pySplit "api_url=u=v" "=" = ["api_url", "u", "v"] := by decide
example : pyStrip "   api_url " = "api_url" := by decide
example : pyContains "era5_sfc.cfg" "sfc" = true := by rfl

example :
    generateAdditionalContent [("http://u1", "k1"), ("http://u2", "k2")] =
      "parameters.api0\n            api_url=http://u1\napi_key=k1\n\n" ++
      "parameters.api1\n            api_url=http://u2\napi_key=k2\n\n" := by
  decide

example :
    appendCredentials [⟨"selection", [("date", "x")]⟩]
        (generateAdditionalContent [("http://u1", "k1")]) =
      .ok [⟨"selection", [("date", "x")]⟩,
           ⟨"parameters.api0", [("api_url", "http://u1"), ("api_key", "k1")]⟩] := by
  decide

example :
    newConfigFile [⟨"selection", [("date", "x")]⟩] "date" ""
        ⟨false, ⟨2023, 12, 1⟩, ⟨2023, 12, 31⟩, "2023", "12"⟩ none =
      .ok [⟨"selection", [("date", "2023-12-01/to/2023-12-31")]⟩] := by
  decide

/-! ## Date lemmas -/

theorem daysInMonth_pos (y m : Nat) : 1 ≤ daysInMonth y m := by
  unfold daysInMonth
  split_ifs <;> omega

theorem prevDay_wf {d : Date} (h : DateWF d) : DateWF (prevDay d) := by
  obtain ⟨h1, h2, h3⟩ := h
  unfold prevDay
  split_ifs with hd hm
  · exact ⟨h1, h2, by simp; omega⟩
  · exact ⟨by simp; omega, by simp; omega, daysInMonth_pos _ _⟩
  · exact ⟨by simp, by simp, by simp⟩

theorem subDays_wf {d : Date} (h : DateWF d) (k : Nat) : DateWF (subDays d k) := by
  induction k with
  | zero => exact h
  | succ n ih => exact prevDay_wf ih

theorem valid_wf {d : Date} (h : d.Valid) : DateWF d :=
  ⟨h.2.2.1, h.2.2.2.1, h.2.2.2.2.1⟩

/-- Closed form of `get_month_range` on any date with a real month number:
the first and last day of the month immediately preceding the input's
month. -/
theorem getMonthRange_eq {d : Date} (h1 : 1 ≤ d.month) (h2 : d.month ≤ 12) :
    getMonthRange d =
      if d.month = 1 then
        (⟨d.year - 1, 12, 1⟩, ⟨d.year - 1, 12, 31⟩)
      else
        (⟨d.year, d.month - 1, 1⟩,
         ⟨d.year, d.month - 1, daysInMonth d.year (d.month - 1)⟩) := by
  unfold getMonthRange prevDay
  by_cases hm : d.month = 1
  · simp [hm, daysInMonth]
  · have hlt : 1 < d.month := by omega
    simp [hm, hlt]

theorem getPreviousMonthDates_daily (today : Date) :
    getPreviousMonthDates modeERA5TDaily today =
      { first_day := subDays today 6
        last_day := subDays today 6
        sl_year := pySlice (isoString (subDays today 6)) 0 4
        sl_month := pySlice (isoString (subDays today 6)) 5 7 } := by
  simp [getPreviousMonthDates, modeERA5TDaily, modeERA5TMonthly]

theorem getPreviousMonthDates_monthly (today : Date) :
    getPreviousMonthDates modeERA5TMonthly today =
      { first_day := (getMonthRange today).1
        last_day := (getMonthRange today).2
        sl_year := pySlice (isoString (getMonthRange today).1) 0 4
        sl_month := pySlice (isoString (getMonthRange today).1) 5 7 } := by
  simp [getPreviousMonthDates, modeERA5TDaily, modeERA5TMonthly]

theorem getPreviousMonthDates_else (mode : String) (today : Date)
    (hd : mode ≠ modeERA5TDaily) (hm : mode ≠ modeERA5TMonthly) :
    getPreviousMonthDates mode today =
      { first_day := (getMonthRange (subDays today 61)).1
        last_day := (getMonthRange (subDays today 61)).2
        sl_year := pySlice (isoString (getMonthRange (subDays today 61)).1) 0 4
        sl_month := pySlice (isoString (getMonthRange (subDays today 61)).1) 5 7 } := by
  simp [getPreviousMonthDates, hd, hm]

/-! ## Window-calculator claims -/

/-- C7: for mode `ERA5T_DAILY` and every date `today`, `compute_window`
returns `first_day = last_day = today - 6 days`; in particular for
`today = 2024-03-10` both equal `2024-03-04`. -/
theorem c7_era5t_daily_window (today : Date) :
    (getPreviousMonthDates modeERA5TDaily today).first_day = subDays today 6 ∧
    (getPreviousMonthDates modeERA5TDaily today).last_day = subDays today 6 ∧
    (getPreviousMonthDates modeERA5TDaily ⟨2024, 3, 10⟩).first_day = ⟨2024, 3, 4⟩ ∧
    (getPreviousMonthDates modeERA5TDaily ⟨2024, 3, 10⟩).last_day = ⟨2024, 3, 4⟩ := by
  refine ⟨?_, ?_, by decide, by decide⟩ <;>
    simp [getPreviousMonthDates_daily]

/-- C6: for mode `ERA5T_MONTHLY`, `compute_window` anchors at `today` and
returns the full calendar month immediately preceding the anchor's month
(stepping to the last day of the prior month, then to its first day). -/
theorem c6_era5t_monthly_window (today : Date) (h : today.Valid) :
    (1 < today.month →
      (getPreviousMonthDates modeERA5TMonthly today).first_day =
        ⟨today.year, today.month - 1, 1⟩ ∧
      (getPreviousMonthDates modeERA5TMonthly today).last_day =
        ⟨today.year, today.month - 1, daysInMonth today.year (today.month - 1)⟩) ∧
    (today.month = 1 →
      (getPreviousMonthDates modeERA5TMonthly today).first_day =
        ⟨today.year - 1, 12, 1⟩ ∧
      (getPreviousMonthDates modeERA5TMonthly today).last_day =
        ⟨today.year - 1, 12, 31⟩) := by
  have hwf := valid_wf h
  have hr := getMonthRange_eq hwf.1 hwf.2.1
  constructor
  · intro hgt
    rw [if_neg (by omega)] at hr
    simp [getPreviousMonthDates_monthly, hr]
  · intro heq
    rw [if_pos heq] at hr
    simp [getPreviousMonthDates_monthly, hr]

/-- Witness for C6 at `today = 2024-03-15`: window is
`2024-02-01 .. 2024-02-29` (leap year). -/
theorem c6_era5t_monthly_window_witness :
    Date.Valid ⟨2024, 3, 15⟩ ∧
    (getPreviousMonthDates modeERA5TMonthly ⟨2024, 3, 15⟩).first_day = ⟨2024, 2, 1⟩ ∧
    (getPreviousMonthDates modeERA5TMonthly ⟨2024, 3, 15⟩).last_day = ⟨2024, 2, 29⟩ := by
  refine ⟨by decide, ?_⟩
  have h := (c6_era5t_monthly_window ⟨2024, 3, 15⟩ (by decide)).1 (by decide)
  exact ⟨h.1.trans (by decide), h.2.trans (by decide)⟩

/-- C1 (counterexample to the claim as stated): for mode `ERA5` and
`today = 2024-03-10` the anchor is indeed `2024-01-09`, but the window is
the full month of December 2023 — not January 2024, the month containing
the anchor, as the claim asserts. -/
theorem c1_era5_window_counterexample :
    subDays ⟨2024, 3, 10⟩ 61 = ⟨2024, 1, 9⟩ ∧
    (getPreviousMonthDates modeERA5 ⟨2024, 3, 10⟩).first_day = ⟨2023, 12, 1⟩ ∧
    (getPreviousMonthDates modeERA5 ⟨2024, 3, 10⟩).last_day = ⟨2023, 12, 31⟩ ∧
    (getPreviousMonthDates modeERA5 ⟨2024, 3, 10⟩).first_day ≠ ⟨2024, 1, 1⟩ ∧
    (getPreviousMonthDates modeERA5 ⟨2024, 3, 10⟩).last_day ≠ ⟨2024, 1, 31⟩ := by
  decide

/-- C1 (amended): for any mode other than `ERA5T_DAILY` and
`ERA5T_MONTHLY`, `compute_window` anchors at `today - 61` days
(`2*366/12 = 61.0`) and returns the full calendar month immediately
preceding the month containing that anchor. -/
theorem c1_era5_window (mode : String) (today : Date)
    (hd : mode ≠ modeERA5TDaily) (hm : mode ≠ modeERA5TMonthly)
    (h : today.Valid) :
    (1 < (subDays today 61).month →
      (getPreviousMonthDates mode today).first_day =
        ⟨(subDays today 61).year, (subDays today 61).month - 1, 1⟩ ∧
      (getPreviousMonthDates mode today).last_day =
        ⟨(subDays today 61).year, (subDays today 61).month - 1,
          daysInMonth (subDays today 61).year ((subDays today 61).month - 1)⟩) ∧
    ((subDays today 61).month = 1 →
      (getPreviousMonthDates mode today).first_day =
        ⟨(subDays today 61).year - 1, 12, 1⟩ ∧
      (getPreviousMonthDates mode today).last_day =
        ⟨(subDays today 61).year - 1, 12, 31⟩) := by
  have hwf := subDays_wf (valid_wf h) 61
  have hr := getMonthRange_eq hwf.1 hwf.2.1
  constructor
  · intro hgt
    rw [if_neg (by omega)] at hr
    simp [getPreviousMonthDates_else mode today hd hm, hr]
  · intro heq
    rw [if_pos heq] at hr
    simp [getPreviousMonthDates_else mode today hd hm, hr]

/-- Witness for the amended C1 at `mode = "ERA5"`, `today = 2024-03-10`:
the anchor `2024-01-09` has month January, so the window is December
2023. -/
theorem c1_era5_window_witness :
    ((modeERA5 ≠ modeERA5TDaily ∧ modeERA5 ≠ modeERA5TMonthly ∧
        Date.Valid ⟨2024, 3, 10⟩ ∧ (subDays ⟨2024, 3, 10⟩ 61).month = 1)) ∧
    (getPreviousMonthDates modeERA5 ⟨2024, 3, 10⟩).first_day = ⟨2023, 12, 1⟩ ∧
    (getPreviousMonthDates modeERA5 ⟨2024, 3, 10⟩).last_day = ⟨2023, 12, 31⟩ := by
  refine ⟨⟨by decide, by decide, by decide, by decide⟩, ?_⟩
  have h := (c1_era5_window modeERA5 ⟨2024, 3, 10⟩ (by decide) (by decide)
    (by decide)).2 (by decide)
  exact ⟨h.1.trans (by decide), h.2.trans (by decide)⟩

/-- C9: slicing characters `[0:4]` and `[5:7]` out of the ISO string of any
valid date yields exactly the 4-digit zero-padded year and the 2-digit
zero-padded month. -/
theorem c9_sl_year_month_slices (d : Date) (_h : d.Valid) :
    pySlice (isoString d) 0 4 = ⟨pad4 d.year⟩ ∧
    pySlice (isoString d) 5 7 = ⟨pad2 d.month⟩ := by
  exact ⟨rfl, rfl⟩

/-- Witness for C9 at `2024-01-09`. -/
theorem c9_sl_year_month_slices_witness :
    Date.Valid ⟨2024, 1, 9⟩ ∧
    pySlice (isoString ⟨2024, 1, 9⟩) 0 4 = "2024" ∧
    pySlice (isoString ⟨2024, 1, 9⟩) 5 7 = "01" := by
  refine ⟨by decide, ?_⟩
  have h := c9_sl_year_month_slices ⟨2024, 1, 9⟩ (by decide)
  exact ⟨h.1.trans (by decide), h.2.trans (by decide)⟩

/-! ## Lemmas about the splitting scanner -/

theorem isPrefixOf_append_self (l t : List Char) :
    l.isPrefixOf (l ++ t) = true := by
  induction l with
  | nil => simp [List.isPrefixOf]
  | cons c l ih => simp [List.isPrefixOf, ih]

/-- A chunk containing no separator head character is consumed into the
current segment unchanged. -/
theorem pySplitGo_chunk (s0 : Char) (stail : List Char) (w : List Char)
    (s acc : List Char) (hw : ∀ c ∈ w, c ≠ s0) :
    pySplitGo s0 stail (w ++ s) 0 acc = pySplitGo s0 stail s 0 (acc ++ w) := by
  induction w generalizing acc with
  | nil => simp
  | cons c w ih =>
    have hc : (s0 == c) = false :=
      beq_eq_false_iff_ne.mpr (Ne.symm (hw c (List.mem_cons_self c w)))
    simp only [List.cons_append, pySplitGo, List.isPrefixOf, hc,
      Bool.false_and, Bool.false_eq_true, if_false]
    simpa using ih (acc ++ [c]) (fun d hd => hw d (List.mem_cons_of_mem c hd))

/-- While `skip` separator characters remain to be consumed, characters are
dropped without inspection. -/
theorem pySplitGo_skip (s0 : Char) (stail : List Char) (u t acc : List Char) :
    pySplitGo s0 stail (u ++ t) u.length acc = pySplitGo s0 stail t 0 acc := by
  induction u with
  | nil => rfl
  | cons c u ih => simp [pySplitGo, ih]

/-- At an occurrence of the separator, the current segment is emitted and
the separator is consumed. -/
theorem pySplitGo_match (s0 : Char) (stail : List Char) (t acc : List Char) :
    pySplitGo s0 stail (s0 :: (stail ++ t)) 0 acc =
      acc :: pySplitGo s0 stail t 0 [] := by
  have hpre : (s0 :: stail).isPrefixOf (s0 :: (stail ++ t)) = true := by
    simpa [List.isPrefixOf] using isPrefixOf_append_self stail t
  simp only [pySplitGo, hpre, if_true]
  rw [pySplitGo_skip]

theorem pySplitGo_nil (s0 : Char) (stail acc : List Char) :
    pySplitGo s0 stail [] 0 acc = [acc] := rfl

/-! ## Digit, decimal-representation and strip lemmas -/

theorem digitChar_props (d : Nat) :
    digitChar d ≠ '\n' ∧ pyIsSpace (digitChar d) = false ∧ digitChar d ≠ '=' := by
  unfold digitChar
  split_ifs <;> exact ⟨by decide, by decide, by decide⟩

theorem natCharsAux_props (fuel : Nat) :
    ∀ n, n < fuel →
      natCharsAux fuel n ≠ [] ∧ ∀ c ∈ natCharsAux fuel n, ∃ d, c = digitChar d := by
  induction fuel with
  | zero => intro n h; omega
  | succ fuel ih =>
    intro n _h
    by_cases h10 : n < 10
    · refine ⟨by simp [natCharsAux, h10], ?_⟩
      intro c hc
      simp [natCharsAux, h10] at hc
      exact ⟨n, hc⟩
    · have hn : n / 10 < fuel := by
        have h1 : n / 10 < n := Nat.div_lt_self (by omega) (by omega)
        omega
      obtain ⟨hne, hall⟩ := ih (n / 10) hn
      refine ⟨by simp [natCharsAux, h10, hne], ?_⟩
      intro c hc
      simp only [natCharsAux, h10, if_false, List.mem_append] at hc
      rcases hc with hc | hc
      · exact hall c hc
      · simp at hc
        exact ⟨n % 10, hc⟩

theorem natChars_digits (n : Nat) :
    natChars n ≠ [] ∧ ∀ c ∈ natChars n, ∃ d, c = digitChar d :=
  natCharsAux_props (n + 1) n (Nat.lt_succ_self n)

theorem natChars_no_nl (n : Nat) : ∀ c ∈ natChars n, c ≠ '\n' := by
  intro c hc
  obtain ⟨d, rfl⟩ := (natChars_digits n).2 c hc
  exact (digitChar_props d).1

theorem natChars_no_space (n : Nat) : ∀ c ∈ natChars n, pyIsSpace c = false := by
  intro c hc
  obtain ⟨d, rfl⟩ := (natChars_digits n).2 c hc
  exact (digitChar_props d).2.1

theorem dropWhile_eq_self_of_all (p : Char → Bool) (l : List Char)
    (h : ∀ c ∈ l, p c = false) : l.dropWhile p = l := by
  cases l with
  | nil => rfl
  | cons a t =>
    exact List.dropWhile_cons_of_neg (by simp [h a (List.mem_cons_self a t)])

theorem pyStripL_of_all (l : List Char) (h : ∀ c ∈ l, pyIsSpace c = false) :
    pyStripL l = l := by
  unfold pyStripL
  rw [dropWhile_eq_self_of_all _ _ h,
    dropWhile_eq_self_of_all _ _ (fun c hc => h c (List.mem_reverse.mp hc)),
    List.reverse_reverse]

theorem pyStrip_header (i : Nat) :
    pyStrip ⟨"parameters.api".data ++ natChars i⟩ = apiName i := by
  unfold pyStrip
  rw [pyStripL_of_all]
  · exact String.ext (by simp [apiName, natStr, String.data_append])
  · have hP : ∀ c ∈ "parameters.api".data, pyIsSpace c = false := by decide
    intro c hc
    rcases List.mem_append.mp hc with hc | hc
    · exact hP c hc
    · exact natChars_no_space i c hc

/-! ## The shape of the generated credential text -/

theorem credBlock_eq (i : Nat) (u k : String) :
    credBlock i u k = contentStr i u k ++ "\n\n" := rfl

theorem contentStr_data (i : Nat) (u k : String) :
    (contentStr i u k).data =
      "parameters.api".data ++ (natChars i ++
        ('\n' :: ("            api_url=".data ++ (u.data ++
          ('\n' :: ("api_key=".data ++ k.data)))))) := by
  have h2 : "\n            api_url=".data = '\n' :: "            api_url=".data := by
    decide
  have h3 : "\napi_key=".data = '\n' :: "api_key=".data := by decide
  simp [contentStr, apiName, natStr, String.data_append, h2, h3]

theorem pySplit_eq_go (s : String) (s0 : Char) (stail : List Char)
    (sep : String) (hsep : sep.data = s0 :: stail) :
    pySplit s sep = (pySplitGo s0 stail s.data 0 []).map (fun l => ⟨l⟩) := by
  unfold pySplit
  rw [hsep]

/-- A list free of the separator head forms the final segment. -/
theorem pySplitGo_last (s0 : Char) (stail : List Char) (w acc : List Char)
    (hw : ∀ c ∈ w, c ≠ s0) :
    pySplitGo s0 stail w 0 acc = [acc ++ w] := by
  have h := pySplitGo_chunk s0 stail w [] acc hw
  simpa using h

/-- Single-newline separator: a newline always cuts. -/
theorem pySplitGo_nl_match (t acc : List Char) :
    pySplitGo '\n' [] ('\n' :: t) 0 acc = acc :: pySplitGo '\n' [] t 0 [] := by
  simpa using pySplitGo_match '\n' [] t acc

/-- Blank-line separator: two consecutive newlines cut. -/
theorem pySplitGo_nlnl_match (t acc : List Char) :
    pySplitGo '\n' ['\n'] ('\n' :: '\n' :: t) 0 acc =
      acc :: pySplitGo '\n' ['\n'] t 0 [] := by
  simpa using pySplitGo_match '\n' ['\n'] t acc

/-- Blank-line separator: a lone newline (not followed by another) is
consumed into the current segment. -/
theorem pySplitGo_nl_step (t acc : List Char) (hc : t.head? ≠ some '\n') :
    pySplitGo '\n' ['\n'] ('\n' :: t) 0 acc =
      pySplitGo '\n' ['\n'] t 0 (acc ++ ['\n']) := by
  cases t with
  | nil => simp [pySplitGo, List.isPrefixOf]
  | cons c t' =>
    have hcc : ('\n' == c) = false := by
      simp only [List.head?_cons, ne_eq, Option.some.injEq] at hc
      exact beq_eq_false_iff_ne.mpr (fun hh => hc hh.symm)
    simp [pySplitGo, List.isPrefixOf, hcc]

theorem head?_append_ne_nl (l t : List Char) (c : Char) (h : l.head? = some c)
    (hc : c ≠ '\n') : (l ++ t).head? ≠ some '\n' := by
  rw [List.head?_append, h]
  simpa using hc

/-- A character different from the separator head is consumed into the
current segment (stated with `==` so that `simp` can discharge the side
condition on character literals). -/
theorem pySplitGo_cons_ne (s0 : Char) (stail : List Char) (c : Char)
    (rest acc : List Char) (hc : (s0 == c) = false) :
    pySplitGo s0 stail (c :: rest) 0 acc =
      pySplitGo s0 stail rest 0 (acc ++ [c]) := by
  simp [pySplitGo, List.isPrefixOf, hc]

/-- Blank-line separator: a newline followed by a non-newline character is
consumed into the current segment. -/
theorem pySplitGo_nl_cons (c : Char) (t acc : List Char)
    (hc : ('\n' == c) = false) :
    pySplitGo '\n' ['\n'] ('\n' :: c :: t) 0 acc =
      pySplitGo '\n' ['\n'] (c :: t) 0 (acc ++ ['\n']) := by
  simp [pySplitGo, List.isPrefixOf, hc]

/-- Scanning one credential segment followed by a blank-line separator
emits exactly that segment. -/
theorem pySplitGo_content (i : Nat) (u k : String) (T acc : List Char)
    (hu : ∀ c ∈ u.data, c ≠ '\n') (hk : ∀ c ∈ k.data, c ≠ '\n') :
    pySplitGo '\n' ['\n'] ((contentStr i u k).data ++ '\n' :: '\n' :: T) 0 acc =
      (acc ++ (contentStr i u k).data) :: pySplitGo '\n' ['\n'] T 0 [] := by
  rw [contentStr_data]
  rw [List.append_assoc]
  rw [pySplitGo_chunk '\n' ['\n'] "parameters.api".data _ _ (by decide)]
  rw [List.append_assoc]
  rw [pySplitGo_chunk '\n' ['\n'] (natChars i) _ _ (natChars_no_nl i)]
  rw [List.cons_append]
  rw [pySplitGo_nl_step]
  · rw [List.append_assoc]
    rw [pySplitGo_chunk '\n' ['\n'] "            api_url=".data _ _ (by decide)]
    rw [List.append_assoc]
    rw [pySplitGo_chunk '\n' ['\n'] u.data _ _ hu]
    rw [List.cons_append]
    rw [pySplitGo_nl_step]
    · rw [List.append_assoc]
      rw [pySplitGo_chunk '\n' ['\n'] "api_key=".data _ _ (by decide)]
      rw [pySplitGo_chunk '\n' ['\n'] k.data _ _ hk]
      rw [pySplitGo_nlnl_match]
      congr 1
      simp
    · simp [List.head?_append]
  · simp [List.head?_append]

theorem genAdditionalAux_data (i : Nat) (u k : String)
    (rest : List (String × String)) :
    (genAdditionalAux i ((u, k) :: rest)).data =
      (contentStr i u k).data ++ '\n' :: '\n' ::
        (genAdditionalAux (i + 1) rest).data := by
  show (credBlock i u k ++ genAdditionalAux (i + 1) rest).data = _
  rw [credBlock_eq, String.append_assoc]
  have h2 : ("\n\n" ++ genAdditionalAux (i + 1) rest).data =
      '\n' :: '\n' :: (genAdditionalAux (i + 1) rest).data := by
    rw [String.data_append]
    rfl
  rw [String.data_append, h2]

/-- The blank-line scan of the generated credential text: one segment per
secret, then one final empty segment. -/
theorem pySplitGo_genAux (l : List (String × String)) :
    ∀ i, (∀ p ∈ l, (∀ c ∈ p.1.data, c ≠ '\n') ∧ (∀ c ∈ p.2.data, c ≠ '\n')) →
      pySplitGo '\n' ['\n'] (genAdditionalAux i l).data 0 [] =
        (contentStrsFrom i l).map String.data ++ [[]] := by
  induction l with
  | nil => intro i _h; simp [genAdditionalAux, contentStrsFrom, pySplitGo]
  | cons p rest ih =>
    intro i h
    obtain ⟨u, k⟩ := p
    have hu := (h (u, k) (List.mem_cons_self _ _)).1
    have hk := (h (u, k) (List.mem_cons_self _ _)).2
    rw [genAdditionalAux_data, pySplitGo_content i u k _ [] hu hk,
      ih (i + 1) (fun q hq => h q (List.mem_cons_of_mem _ hq))]
    simp [contentStrsFrom]

/-- C5 core: splitting the generated credential text on blank lines yields
the per-secret segments followed by one empty segment. -/
theorem pySplit_generated (secrets : List (String × String))
    (h : ∀ p ∈ secrets, (∀ c ∈ p.1.data, c ≠ '\n') ∧ (∀ c ∈ p.2.data, c ≠ '\n')) :
    pySplit (generateAdditionalContent secrets) "\n\n" =
      contentStrsFrom 0 secrets ++ [""] := by
  rw [pySplit_eq_go _ '\n' ['\n'] _ rfl]
  rw [generateAdditionalContent, pySplitGo_genAux secrets 0 h]
  have hmk : ((fun l => (⟨l⟩ : String)) ∘ String.data) = id := funext fun _ => rfl
  simp [List.map_map, hmk]

/-- The three lines of one credential segment. -/
theorem pySplit_contentStr_lines (i : Nat) (u k : String)
    (hu : ∀ c ∈ u.data, c ≠ '\n') (hk : ∀ c ∈ k.data, c ≠ '\n') :
    pySplit (contentStr i u k) "\n" =
      [⟨"parameters.api".data ++ natChars i⟩,
       ⟨"            api_url=".data ++ u.data⟩,
       ⟨"api_key=".data ++ k.data⟩] := by
  rw [pySplit_eq_go _ '\n' [] _ rfl, contentStr_data]
  rw [pySplitGo_chunk '\n' [] "parameters.api".data _ _ (by decide)]
  rw [pySplitGo_chunk '\n' [] (natChars i) _ _ (natChars_no_nl i)]
  rw [pySplitGo_nl_match]
  rw [pySplitGo_chunk '\n' [] "            api_url=".data _ _ (by decide)]
  rw [pySplitGo_chunk '\n' [] u.data _ _ hu]
  rw [pySplitGo_nl_match]
  rw [pySplitGo_last '\n' [] ("api_key=".data ++ k.data) []
    (by
      intro c hc
      rcases List.mem_append.mp hc with hc | hc
      · have hKEY : ∀ c ∈ "api_key=".data, c ≠ '\n' := by decide
        exact hKEY c hc
      · exact hk c hc)]
  simp

/-! ## Config-operation lemmas -/

theorem hasSection_append (a b : Config) (n : String) :
    hasSection (a ++ b) n = (hasSection a n || hasSection b n) := by
  simp [hasSection, List.any_append]

theorem except_bind_ok {ε α β : Type} (a : α) (f : α → Except ε β) :
    (Except.ok a >>= f) = f a := rfl

theorem addSection_ok {cfg : Config} {n : String} {c' : Config}
    (h : addSection cfg n = .ok c') :
    hasSection cfg n = false ∧ c' = cfg ++ [⟨n, []⟩] := by
  unfold addSection at h
  by_cases hs : hasSection cfg n
  · rw [if_pos hs] at h
    cases h
  · rw [if_neg hs] at h
    refine ⟨by simpa using hs, ?_⟩
    injection h with h
    exact h.symm

theorem getEntry_setEntry_same (es : List (String × String)) (k v : String) :
    getEntry (setEntry es k v) k = some v := by
  induction es with
  | nil => simp [setEntry, getEntry]
  | cons e rest ih =>
    obtain ⟨k1, v1⟩ := e
    by_cases hk : k1 = k
    · simp [setEntry, getEntry, hk]
    · simp [setEntry, getEntry, hk, ih]

theorem getEntry_setEntry_other (es : List (String × String)) (k v k2 : String)
    (h : k2 ≠ k) : getEntry (setEntry es k v) k2 = getEntry es k2 := by
  induction es with
  | nil => simp [setEntry, getEntry, Ne.symm h]
  | cons e rest ih =>
    obtain ⟨k1, v1⟩ := e
    by_cases hk : k1 = k
    · subst hk
      simp [setEntry, getEntry, Ne.symm h]
    · simp [setEntry, getEntry, hk, ih]

theorem setOpt_ok_names {cfg : Config} {n k v : String} {c' : Config}
    (h : setOpt cfg n k v = .ok c') :
    c'.map CfgSection.name = cfg.map CfgSection.name := by
  induction cfg generalizing c' with
  | nil => cases h
  | cons s rest ih =>
    unfold setOpt at h
    split_ifs at h with hn
    · injection h with h
      subst h
      simp
    · cases hrec : setOpt rest n k v with
      | error e => rw [hrec] at h; cases h
      | ok r' =>
        rw [hrec, except_bind_ok] at h
        injection h with h
        subst h
        simp [ih hrec]

theorem setOpt_ok_hasSection {cfg : Config} {n k v : String} {c' : Config}
    (h : setOpt cfg n k v = .ok c') : hasSection cfg n = true := by
  induction cfg generalizing c' with
  | nil => cases h
  | cons s rest ih =>
    unfold setOpt at h
    split_ifs at h with hn
    · simp [hasSection, hn]
    · cases hrec : setOpt rest n k v with
      | error e => rw [hrec] at h; cases h
      | ok r' =>
        simp [hasSection, hn]
        have := ih hrec
        simpa [hasSection] using this

theorem hasSection_mem (cfg : Config) (n : String) :
    hasSection cfg n = true ↔ n ∈ cfg.map CfgSection.name := by
  simp only [hasSection, List.any_eq_true, List.mem_map, decide_eq_true_eq]

theorem hasSection_of_names_eq {a b : Config}
    (h : a.map CfgSection.name = b.map CfgSection.name) (n : String) :
    hasSection a n = hasSection b n := by
  rw [Bool.eq_iff_iff, hasSection_mem, hasSection_mem, h]

theorem setOpt_get_same {cfg : Config} {n k v : String} {c' : Config}
    (h : setOpt cfg n k v = .ok c') (k2 : String)
    (hk2 : pyLower k2 = pyLower k) : getOpt c' n k2 = .ok v := by
  induction cfg generalizing c' with
  | nil => cases h
  | cons s rest ih =>
    unfold setOpt at h
    split_ifs at h with hn
    · injection h with h
      subst h
      simp [getOpt, hn, hk2, getEntry_setEntry_same]
    · cases hrec : setOpt rest n k v with
      | error e => rw [hrec] at h; cases h
      | ok r' =>
        rw [hrec, except_bind_ok] at h
        injection h with h
        subst h
        simp [getOpt, hn, ih hrec]

theorem setOpt_get_other_key {cfg : Config} {n k v : String} {c' : Config}
    (h : setOpt cfg n k v = .ok c') (k2 : String)
    (hk2 : pyLower k2 ≠ pyLower k) : getOpt c' n k2 = getOpt cfg n k2 := by
  induction cfg generalizing c' with
  | nil => cases h
  | cons s rest ih =>
    unfold setOpt at h
    split_ifs at h with hn
    · injection h with h
      subst h
      simp [getOpt, hn, getEntry_setEntry_other _ _ _ _ hk2]
    · cases hrec : setOpt rest n k v with
      | error e => rw [hrec] at h; cases h
      | ok r' =>
        rw [hrec, except_bind_ok] at h
        injection h with h
        subst h
        simp [getOpt, hn, ih hrec]

theorem setOpt_get_other_sec {cfg : Config} {n k v : String} {c' : Config}
    (h : setOpt cfg n k v = .ok c') (n2 : String) (hn2 : n2 ≠ n) (k2 : String) :
    getOpt c' n2 k2 = getOpt cfg n2 k2 := by
  induction cfg generalizing c' with
  | nil => cases h
  | cons s rest ih =>
    unfold setOpt at h
    split_ifs at h with hn
    · injection h with h
      subst h
      have hsn : (n = n2) = False := by
        simp only [eq_iff_iff, iff_false]
        exact fun hh => hn2 hh.symm
      simp [getOpt, hn, hsn]
    · cases hrec : setOpt rest n k v with
      | error e => rw [hrec] at h; cases h
      | ok r' =>
        rw [hrec, except_bind_ok] at h
        injection h with h
        subst h
        by_cases hs : s.name = n2 <;> simp [getOpt, hs, ih hrec]

theorem setOpt_append_fresh (cfg : Config) (n : String)
    (es : List (String × String)) (k v : String)
    (hfresh : hasSection cfg n = false) :
    setOpt (cfg ++ [⟨n, es⟩]) n k v =
      .ok (cfg ++ [⟨n, setEntry es (pyLower k) v⟩]) := by
  induction cfg with
  | nil => simp [setOpt]
  | cons s rest ih =>
    have hs : s.name ≠ n := by
      simp [hasSection] at hfresh
      exact hfresh.1
    have hrest : hasSection rest n = false := by
      simp [hasSection] at hfresh ⊢
      exact hfresh.2
    simp only [List.cons_append, setOpt, hs, if_false, List.append_eq]
    rw [ih hrest]
    rfl

theorem getOpt_append_left {cfg : Config} {n : String}
    (h : hasSection cfg n = true) (tl : Config) (k : String) :
    getOpt (cfg ++ tl) n k = getOpt cfg n k := by
  induction cfg with
  | nil => simp [hasSection] at h
  | cons s rest ih =>
    by_cases hs : s.name = n
    · simp [getOpt, hs]
    · have hrest : hasSection rest n = true := by
        simpa [hasSection, hs] using h
      simp [getOpt, hs, ih hrest]

/-! ## The credential-appending loop -/

theorem except_bind_error {ε α β : Type} (e : ε) (f : α → Except ε β) :
    ((Except.error e : Except ε α) >>= f) = .error e := rfl

/-- A successful `addCredSection` appends exactly one section, named by the
stripped first line of the segment, that name was fresh, and both the
second and third line were split on `=` into exactly two parts. -/
theorem addCredSection_ok {cfg : Config} {seg : String} {c' : Config}
    (h : addCredSection cfg seg = .ok c') :
    ∃ es, hasSection cfg (secName seg) = false ∧
      c' = cfg ++ [⟨secName seg, es⟩] ∧
      ∃ line1 line2 kv1 kv2,
        (pySplit seg "\n").get? 1 = some line1 ∧ split2 line1 = .ok kv1 ∧
        (pySplit seg "\n").get? 2 = some line2 ∧ split2 line2 = .ok kv2 := by
  unfold addCredSection at h
  cases hsp : pySplit seg "\n" with
  | nil =>
    rw [hsp] at h
    simp only [show pyIndex ([] : List String) 0 = .error .indexError from rfl,
      except_bind_error] at h
    exact Except.noConfusion h
  | cons line0 rest =>
    rw [hsp] at h
    simp only [show pyIndex (line0 :: rest) 0 = .ok line0 from rfl,
      except_bind_ok] at h
    have hsec : secName seg = pyStrip line0 := by
      simp [secName, hsp]
    rw [← hsec] at h
    cases hadd : addSection cfg (secName seg) with
    | error e =>
      simp only [hadd, except_bind_error] at h
      exact Except.noConfusion h
    | ok c1 =>
      simp only [hadd, except_bind_ok] at h
      obtain ⟨hfresh, hc1⟩ := addSection_ok hadd
      subst hc1
      cases rest with
      | nil =>
        simp only [show pyIndex [line0] 1 = .error .indexError from rfl,
          except_bind_error] at h
        exact Except.noConfusion h
      | cons line1 rest2 =>
        simp only [show pyIndex (line0 :: line1 :: rest2) 1 = .ok line1
          from rfl, except_bind_ok] at h
        cases hs2 : split2 line1 with
        | error e =>
          simp only [hs2, except_bind_error] at h
          exact Except.noConfusion h
        | ok kv1 =>
          simp only [hs2, except_bind_ok] at h
          simp only [setOpt_append_fresh cfg (secName seg) [] _ _ hfresh,
            except_bind_ok] at h
          cases rest2 with
          | nil =>
            simp only [show pyIndex [line0, line1] 2 = .error .indexError
              from rfl, except_bind_error] at h
            exact Except.noConfusion h
          | cons line2 rest3 =>
            simp only [show pyIndex (line0 :: line1 :: line2 :: rest3) 2 =
              .ok line2 from rfl, except_bind_ok] at h
            cases hs3 : split2 line2 with
            | error e =>
              simp only [hs3, except_bind_error] at h
              exact Except.noConfusion h
            | ok kv2 =>
              simp only [hs3, except_bind_ok,
                setOpt_append_fresh cfg (secName seg) _ _ _ hfresh] at h
              injection h with h
              refine ⟨_, hfresh, h.symm, line1, line2, kv1, kv2, ?_, hs2, ?_, hs3⟩
              · rfl
              · rfl

theorem processSegs_nil (cfg : Config) : processSegs cfg [] = .ok cfg := rfl

theorem processSegs_cons (cfg : Config) (s : String) (r : List String) :
    processSegs cfg (s :: r) =
      (addCredSection cfg s) >>= fun c => processSegs c r := by
  simp [processSegs, List.foldlM_cons]

/-- A successful run of the appending loop appends one section per
segment, named by each segment's stripped first line. -/
theorem processSegs_ok_shape {segs : List String} :
    ∀ {cfg c' : Config}, processSegs cfg segs = .ok c' →
      ∃ added : List CfgSection, c' = cfg ++ added ∧
        added.map CfgSection.name = segs.map secName := by
  induction segs with
  | nil =>
    intro cfg c' h
    rw [processSegs_nil] at h
    injection h with h
    exact ⟨[], h.symm ▸ by simp, by simp⟩
  | cons s r ih =>
    intro cfg c' h
    rw [processSegs_cons] at h
    cases hac : addCredSection cfg s with
    | error e =>
      rw [hac, except_bind_error] at h
      cases h
    | ok c1 =>
      rw [hac, except_bind_ok] at h
      obtain ⟨es, _hfresh, hc1, _⟩ := addCredSection_ok hac
      subst hc1
      obtain ⟨added, hshape, hnames⟩ := ih h
      refine ⟨⟨secName s, es⟩ :: added, ?_, by simp [hnames]⟩
      rw [hshape]
      simp

/-- A successful appending run preserves lookups in pre-existing
sections. -/
theorem processSegs_get {segs : List String} {cfg c' : Config}
    (h : processSegs cfg segs = .ok c') {n : String}
    (hn : hasSection cfg n = true) (k : String) :
    getOpt c' n k = getOpt cfg n k := by
  obtain ⟨added, rfl, _⟩ := processSegs_ok_shape h
  exact getOpt_append_left hn added k

/-- A successful appending run adds exactly one section per segment. -/
theorem processSegs_length {segs : List String} {cfg c' : Config}
    (h : processSegs cfg segs = .ok c') :
    c'.length = cfg.length + segs.length := by
  obtain ⟨added, rfl, hnames⟩ := processSegs_ok_shape h
  have := congrArg List.length hnames
  simp at this
  simp [this]

/-! ## Frame property of the per-file loop -/

theorem runFiles_skip {field_name additional_content : String}
    {dates : MonthDates} {files_to_update : List String}
    {temp_path : Option String} :
    ∀ (files : List (String × Config)) (i : Nat),
      (∀ p, files[i]? = some p →
        (files_to_update.any fun chunk => pyContains p.1 chunk) = false) →
      ((runFiles field_name additional_content dates files_to_update
        temp_path files).1)[i]? = files[i]? := by
  intro files
  induction files with
  | nil => intro i _h; rfl
  | cons f fs ih =>
    intro i hno
    obtain ⟨fn, cfg⟩ := f
    by_cases he : (files_to_update.any fun chunk => pyContains fn chunk) = true
    · cases i with
      | zero =>
        have := hno (fn, cfg) (by simp)
        rw [this] at he
        cases he
      | succ i =>
        simp only [runFiles, he, if_true]
        cases hnc : newConfigFile cfg field_name additional_content
            (argsFor fn dates) temp_path with
        | ok cfg' =>
          simp only [List.getElem?_cons_succ]
          exact ih i (fun p hp => hno p (by simpa using hp))
        | error e => simp
    · have he' : (files_to_update.any fun chunk => pyContains fn chunk) = false := by
        simpa using he
      simp only [runFiles, he', Bool.false_eq_true, if_false]
      cases i with
      | zero => simp
      | succ i =>
        simp only [List.getElem?_cons_succ]
        exact ih i (fun p hp => hno p (by simpa using hp))

/-- C3: for every execution mode, a discovered file whose name contains
none of that mode's configured fragments is returned untouched by
`update_config_file` (its parsed content, hence the file on disk, is
unchanged). -/
theorem c3_unmatched_file_untouched (files : List (String × Config))
    (field_name mode : String) (temp_path : Option String) (today : Date)
    (secrets : List (String × String)) (ftu : List String)
    (hmode : filesToUpdate mode = some ftu)
    (out : List (String × Config)) (err : Option CfgError)
    (hrun : updateConfigFile files field_name mode temp_path today secrets =
      some (out, err))
    (i : Nat)
    (hno : ∀ p, files[i]? = some p → ∀ chunk ∈ ftu, pyContains p.1 chunk = false) :
    out[i]? = files[i]? := by
  unfold updateConfigFile at hrun
  rw [hmode] at hrun
  injection hrun with hrun
  have h1 : out = (runFiles field_name (generateAdditionalContent secrets)
      (getPreviousMonthDates mode today) ftu temp_path files).1 :=
    congrArg Prod.fst hrun.symm
  rw [h1]
  apply runFiles_skip files i
  intro p hp
  rw [List.any_eq_false]
  intro chunk hch
  simp [hno p hp chunk hch]

/-- Witness for C3: mode `ERA5`, a file named `x/other.cfg` (containing no
fragment) next to an eligible one; the unmatched file is returned
unchanged. -/
theorem c3_unmatched_file_untouched_witness :
    filesToUpdate modeERA5 = some
      ["dve", "o3q", "qrqs", "tw", "pl", "sl", "lnsp", "zs", "sfc"] ∧
    (updateConfigFile
        [("x/other.cfg", [⟨"selection", [("date", "x")]⟩])]
        "date" modeERA5 none ⟨2024, 3, 10⟩ [] =
      some ([("x/other.cfg", [⟨"selection", [("date", "x")]⟩])], none)) ∧
    (([("x/other.cfg", [⟨"selection", [("date", "x")]⟩])] :
        List (String × Config))[0]? =
      some ("x/other.cfg", [⟨"selection", [("date", "x")]⟩])) := by
  refine ⟨by decide, ?_, by decide⟩
  have h := c3_unmatched_file_untouched
    [("x/other.cfg", [⟨"selection", [("date", "x")]⟩])] "date" modeERA5 none
    ⟨2024, 3, 10⟩ []
    ["dve", "o3q", "qrqs", "tw", "pl", "sl", "lnsp", "zs", "sfc"] (by decide)
    (updateConfigFile [("x/other.cfg", [⟨"selection", [("date", "x")]⟩])]
      "date" modeERA5 none ⟨2024, 3, 10⟩ [] |>.getD ([], none)).1
    (updateConfigFile [("x/other.cfg", [⟨"selection", [("date", "x")]⟩])]
      "date" modeERA5 none ⟨2024, 3, 10⟩ [] |>.getD ([], none)).2
    (by decide) 0 (by decide)
  revert h
  decide

/-! ## The exactly-one-equals requirement of the two-way unpack -/

theorem pySplitGo_eq_length (l : List Char) :
    ∀ acc, (pySplitGo '=' [] l 0 acc).length = l.count '=' + 1 := by
  induction l with
  | nil => intro acc; simp [pySplitGo]
  | cons c rest ih =>
    intro acc
    by_cases hc : c = '='
    · subst hc
      have hm := pySplitGo_match '=' [] rest acc
      simp only [List.nil_append] at hm
      rw [hm]
      simp [List.count_cons, ih]
    · rw [pySplitGo_cons_ne '=' [] c rest acc
        (beq_eq_false_iff_ne.mpr (Ne.symm hc))]
      rw [ih]
      simp [List.count_cons, hc]

/-- `a, b = s.split("=")` succeeds exactly when `s` contains one `=`. -/
theorem split2_ok_count {s : String} {kv : String × String}
    (h : split2 s = .ok kv) : s.data.count '=' = 1 := by
  have hl : (pySplit s "=").length = s.data.count '=' + 1 := by
    rw [pySplit_eq_go s '=' [] "=" rfl]
    simp [pySplitGo_eq_length]
  unfold split2 at h
  cases hsp : pySplit s "=" with
  | nil => rw [hsp] at h; cases h
  | cons a t =>
    cases t with
    | nil => rw [hsp] at h; cases h
    | cons b t2 =>
      cases t2 with
      | nil =>
        rw [hsp] at hl
        simp at hl
        omega
      | cons x t3 => rw [hsp] at h; cases h

/-- C10: the credential-appending step is partial: it succeeds only when
the segment's `api_url` and `api_key` lines each contain exactly one `=`;
a resolved secret whose `api_url` value itself contains `=` makes the
two-way unpack raise `ValueError`, aborting the file's mutation. -/
theorem c10_unpack_partiality :
    (∀ (cfg : Config) (seg : String) (c' : Config),
      addCredSection cfg seg = .ok c' →
      ∃ line1 line2,
        (pySplit seg "\n").get? 1 = some line1 ∧
        (pySplit seg "\n").get? 2 = some line2 ∧
        line1.data.count '=' = 1 ∧ line2.data.count '=' = 1) ∧
    appendCredentials [⟨"selection", [("date", "x")]⟩]
        (generateAdditionalContent [("http://host/a=b", "secret")]) =
      .error .valueError := by
  constructor
  · intro cfg seg c' h
    obtain ⟨es, _, _, line1, line2, kv1, kv2, h1, hs1, h2, hs2⟩ :=
      addCredSection_ok h
    exact ⟨line1, line2, h1, h2, split2_ok_count hs1, split2_ok_count hs2⟩
  · decide

/-- Witness for C10: a concrete segment on which the append succeeds, whose
url and key lines each contain exactly one `=`. -/
theorem c10_unpack_partiality_witness :
    addCredSection [] "parameters.api0\napi_url=http://u\napi_key=k" =
      .ok [⟨"parameters.api0", [("api_url", "http://u"), ("api_key", "k")]⟩] ∧
    (∃ line1 line2,
      (pySplit "parameters.api0\napi_url=http://u\napi_key=k" "\n").get? 1 =
        some line1 ∧
      (pySplit "parameters.api0\napi_url=http://u\napi_key=k" "\n").get? 2 =
        some line2 ∧
      line1.data.count '=' = 1 ∧ line2.data.count '=' = 1) := by
  refine ⟨by decide, ?_⟩
  exact (c10_unpack_partiality.1 []
    "parameters.api0\napi_url=http://u\napi_key=k"
    [⟨"parameters.api0", [("api_url", "http://u"), ("api_key", "k")]⟩]
    (by decide))

/-! ## Duplicate-section collisions -/

theorem pySplitGo_ne_nil (s0 : Char) (stail : List Char) :
    ∀ (s : List Char) (skip : Nat) (acc : List Char),
      pySplitGo s0 stail s skip acc ≠ [] := by
  intro s
  induction s with
  | nil => intro skip acc; simp [pySplitGo]
  | cons c rest ih =>
    intro skip acc
    cases skip with
    | zero =>
      unfold pySplitGo
      split_ifs
      · simp
      · exact ih 0 (acc ++ [c])
    | succ n => exact ih n acc

theorem pySplit_ne_nil (s sep : String) : pySplit s sep ≠ [] := by
  unfold pySplit
  cases sep.data with
  | nil => simp
  | cons s0 stail => simp [pySplitGo_ne_nil]

/-- When the section name derived from a segment already exists, the
appending step raises `DuplicateSectionError` (the name collision is not
pre-checked). -/
theorem addCredSection_dup {cfg : Config} {seg : String}
    (hdup : hasSection cfg (secName seg) = true) :
    addCredSection cfg seg = .error .duplicateSectionError := by
  unfold addCredSection
  cases hsp : pySplit seg "\n" with
  | nil => exact absurd hsp (pySplit_ne_nil seg "\n")
  | cons line0 rest =>
    simp only [show pyIndex (line0 :: rest) 0 = .ok line0 from rfl,
      except_bind_ok]
    have hsec : secName seg = pyStrip line0 := by
      simp [secName, hsp]
    rw [← hsec]
    have hadd : addSection cfg (secName seg) = .error .duplicateSectionError := by
      unfold addSection
      rw [if_pos hdup]
    rw [hadd, except_bind_error]

/-- `hasSection` is monotone along a successful appending run. -/
theorem processSegs_hasSection {segs : List String} {cfg c' : Config}
    (h : processSegs cfg segs = .ok c') {n : String}
    (hn : hasSection cfg n = true) : hasSection c' n = true := by
  obtain ⟨added, rfl, _⟩ := processSegs_ok_shape h
  rw [hasSection_append, hn, Bool.true_or]

/-- C8: appending the credential sections fails with
`DuplicateSectionError` whenever some segment's section name (its stripped
first line) already exists in the config file, provided the earlier
segments were processed without error; the collision is detected only when
`add_section` raises, aborting the file's mutation. -/
theorem c8_duplicate_section_aborts (cfg : Config) (text : String) (k : Nat)
    (ck : Config) (segs : List String)
    (hsegs : segs = (pySplit text "\n\n").dropLast)
    (hk : k < segs.length)
    (hpre : processSegs cfg (segs.take k) = .ok ck)
    (hdup : hasSection cfg (secName (segs.get ⟨k, hk⟩)) = true) :
    appendCredentials cfg text = .error .duplicateSectionError := by
  unfold appendCredentials
  rw [← hsegs]
  have hdecomp : segs.take k ++ segs.get ⟨k, hk⟩ :: segs.drop (k + 1) = segs := by
    rw [show segs.get ⟨k, hk⟩ = segs[k] from rfl, List.getElem_cons_drop segs k hk,
      List.take_append_drop]
  have hstep : processSegs cfg segs =
      processSegs cfg (segs.take k ++ segs.get ⟨k, hk⟩ :: segs.drop (k + 1)) := by
    rw [hdecomp]
  rw [hstep]
  unfold processSegs
  rw [List.foldlM_append]
  show (processSegs cfg (segs.take k) >>= fun c =>
    List.foldlM addCredSection c (segs.get ⟨k, hk⟩ :: segs.drop (k + 1))) = _
  rw [hpre, except_bind_ok]
  show processSegs ck (segs.get ⟨k, hk⟩ :: segs.drop (k + 1)) = _
  rw [processSegs_cons,
    addCredSection_dup (processSegs_hasSection hpre hdup), except_bind_error]

/-- Witness for C8: a config that already has a `parameters.api0` section;
injecting one generated credential block fails with
`DuplicateSectionError`. -/
theorem c8_duplicate_section_aborts_witness :
    appendCredentials [⟨"parameters.api0", []⟩]
        (generateAdditionalContent [("u", "p")]) =
      .error .duplicateSectionError := by
  exact c8_duplicate_section_aborts [⟨"parameters.api0", []⟩]
    (generateAdditionalContent [("u", "p")]) 0 [⟨"parameters.api0", []⟩]
    ((pySplit (generateAdditionalContent [("u", "p")]) "\n\n").dropLast)
    rfl (by decide) (by decide) (by decide)

/-! ## C5: the shape of the generated credential text -/

theorem contentStrsFrom_length :
    ∀ (l : List (String × String)) (i : Nat),
      (contentStrsFrom i l).length = l.length := by
  intro l
  induction l with
  | nil => intro i; rfl
  | cons p rest ih =>
    intro i
    obtain ⟨u, k⟩ := p
    simp [contentStrsFrom, ih]

/-- The three lines of one credential segment, in string form: the
`parameters.api<i>` header, the (indented) `api_url=` line and the
`api_key=` line. -/
theorem contentStr_lines (i : Nat) (u k : String)
    (hu : ∀ c ∈ u.data, c ≠ '\n') (hk : ∀ c ∈ k.data, c ≠ '\n') :
    pySplit (contentStr i u k) "\n" =
      [apiName i, "            api_url=" ++ u, "api_key=" ++ k] := by
  rw [pySplit_contentStr_lines i u k hu hk]
  have e1 : (⟨"parameters.api".data ++ natChars i⟩ : String) = apiName i :=
    String.ext (by simp [apiName, natStr, String.data_append])
  have e2 : (⟨"            api_url=".data ++ u.data⟩ : String) =
      "            api_url=" ++ u :=
    String.ext (by simp [String.data_append])
  have e3 : (⟨"api_key=".data ++ k.data⟩ : String) = "api_key=" ++ k :=
    String.ext (by simp [String.data_append])
  rw [e1, e2, e3]

/-- C5: with `N` resolved secrets (whose values contain no newline), the
generated credential text splits on blank lines into `N + 1` segments whose
last is empty; the `i`-th segment consists of the header `parameters.api<i>`
followed by the `api_url=` and `api_key=` lines; and a successful append of
the text to a config adds exactly `N` sections. -/
theorem c5_generated_content_shape (secrets : List (String × String))
    (h : ∀ p ∈ secrets,
      (∀ c ∈ p.1.data, c ≠ '\n') ∧ (∀ c ∈ p.2.data, c ≠ '\n')) :
    pySplit (generateAdditionalContent secrets) "\n\n" =
      contentStrsFrom 0 secrets ++ [""] ∧
    (pySplit (generateAdditionalContent secrets) "\n\n").length =
      secrets.length + 1 ∧
    (pySplit (generateAdditionalContent secrets) "\n\n").getLast? = some "" ∧
    (∀ i u k, (∀ c ∈ u.data, c ≠ '\n') → (∀ c ∈ k.data, c ≠ '\n') →
      pySplit (contentStr i u k) "\n" =
        [apiName i, "            api_url=" ++ u, "api_key=" ++ k]) ∧
    (∀ (cfg c' : Config),
      appendCredentials cfg (generateAdditionalContent secrets) = .ok c' →
      c'.length = cfg.length + secrets.length) := by
  have h1 := pySplit_generated secrets h
  refine ⟨h1, ?_, ?_, contentStr_lines, ?_⟩
  · rw [h1]
    simp [contentStrsFrom_length]
  · rw [h1]
    simp [List.getLast?_concat]
  · intro cfg c' hc
    unfold appendCredentials at hc
    rw [h1, List.dropLast_concat] at hc
    have hl := processSegs_length hc
    rwa [contentStrsFrom_length] at hl

/-- Witness for C5 with two concrete secrets. -/
theorem c5_generated_content_shape_witness :
    (∀ p ∈ [("http://u1", "k1"), ("http://u2", "k2")],
      (∀ c ∈ p.1.data, c ≠ '\n') ∧ (∀ c ∈ p.2.data, c ≠ '\n')) ∧
    pySplit (generateAdditionalContent
        [("http://u1", "k1"), ("http://u2", "k2")]) "\n\n" =
      ["parameters.api0\n            api_url=http://u1\napi_key=k1",
       "parameters.api1\n            api_url=http://u2\napi_key=k2", ""] ∧
    (pySplit (generateAdditionalContent
        [("http://u1", "k1"), ("http://u2", "k2")]) "\n\n").length = 3 ∧
    ([⟨"selection", [("date", "x")]⟩,
      ⟨"parameters.api0", [("api_url", "http://u1"), ("api_key", "k1")]⟩,
      ⟨"parameters.api1", [("api_url", "http://u2"), ("api_key", "k2")]⟩] :
        Config).length =
      ([⟨"selection", [("date", "x")]⟩] : Config).length +
        [("http://u1", "k1"), ("http://u2", "k2")].length := by
  have H := c5_generated_content_shape
    [("http://u1", "k1"), ("http://u2", "k2")] (by decide)
  refine ⟨by decide, H.1.trans (by decide), H.2.1.trans (by decide), ?_⟩
  exact H.2.2.2.2 [⟨"selection", [("date", "x")]⟩]
    [⟨"selection", [("date", "x")]⟩,
     ⟨"parameters.api0", [("api_url", "http://u1"), ("api_key", "k1")]⟩,
     ⟨"parameters.api1", [("api_url", "http://u2"), ("api_key", "k2")]⟩]
    (by decide)

/-! ## C2: the inject/strip round trip -/

theorem removeLicense_succ (cfg : Config) (N : Nat) :
    removeLicenseFromConfigFile cfg (N + 1) =
      removeSection (removeLicenseFromConfigFile cfg N) (apiName N) := by
  unfold removeLicenseFromConfigFile
  rw [List.range_succ, List.foldl_append]
  rfl

theorem removeLicense_eq_filter (cfg : Config) (N : Nat) :
    removeLicenseFromConfigFile cfg N =
      cfg.filter fun s => (List.range N).all fun j => s.name ≠ apiName j := by
  induction N with
  | zero =>
    have h0 : removeLicenseFromConfigFile cfg 0 = cfg := rfl
    rw [h0]
    symm
    apply List.filter_eq_self.mpr
    intro a _ha
    simp
  | succ N ih =>
    rw [removeLicense_succ, ih]
    unfold removeSection
    rw [List.filter_filter]
    congr 1
    funext s
    simp [List.range_succ, List.all_append, Bool.and_comm]

theorem apiName_head (j : Nat) : (apiName j).data.head? = some 'p' := by
  unfold apiName natStr
  rw [String.data_append]
  rfl

theorem ne_apiName_of_head {s : String} (h : s.data.head? ≠ some 'p')
    (j : Nat) : s ≠ apiName j := by
  intro he
  rw [he] at h
  exact h (apiName_head j)

/-- The section name of the `i`-th generated segment is
`parameters.api<i>`. -/
theorem secName_contentStr (i : Nat) (u k : String)
    (hu : ∀ c ∈ u.data, c ≠ '\n') (hk : ∀ c ∈ k.data, c ≠ '\n') :
    secName (contentStr i u k) = apiName i := by
  unfold secName
  rw [contentStr_lines i u k hu hk]
  simp only [List.headD_cons]
  have e : apiName i = (⟨"parameters.api".data ++ natChars i⟩ : String) :=
    String.ext (by simp [apiName, natStr, String.data_append])
  rw [e, pyStrip_header, e]

theorem contentStrsFrom_names {l : List (String × String)} :
    ∀ i, (∀ p ∈ l, (∀ c ∈ p.1.data, c ≠ '\n') ∧ (∀ c ∈ p.2.data, c ≠ '\n')) →
      ∀ x ∈ (contentStrsFrom i l).map secName,
        ∃ j, i ≤ j ∧ j < i + l.length ∧ x = apiName j := by
  induction l with
  | nil =>
    intro i _h x hx
    simp [contentStrsFrom] at hx
  | cons p rest ih =>
    intro i h x hx
    obtain ⟨u, k⟩ := p
    simp only [contentStrsFrom, List.map_cons, List.mem_cons] at hx
    rcases hx with hx | hx
    · refine ⟨i, le_refl i, by simp, ?_⟩
      rw [hx, secName_contentStr i u k
        (h (u, k) (List.mem_cons_self _ _)).1
        (h (u, k) (List.mem_cons_self _ _)).2]
    · obtain ⟨j, hj1, hj2, hj3⟩ :=
        ih (i + 1) (fun q hq => h q (List.mem_cons_of_mem _ hq)) x hx
      exact ⟨j, by omega, by simp only [List.length_cons]; omega, hj3⟩

/-- C2 (amended): provided the config file holds no `parameters.api<k>`
section beforehand, injecting the `N` generated credential blocks and then
stripping with `count = N` restores the file exactly, leaving zero
`parameters.apiN` sections. -/
theorem c2_roundtrip_clean (cfg : Config) (secrets : List (String × String))
    (cfg' : Config)
    (hclean : ∀ j : Nat, hasSection cfg (apiName j) = false)
    (hnl : ∀ p ∈ secrets,
      (∀ c ∈ p.1.data, c ≠ '\n') ∧ (∀ c ∈ p.2.data, c ≠ '\n'))
    (hinj : appendCredentials cfg (generateAdditionalContent secrets) =
      .ok cfg') :
    removeLicenseFromConfigFile cfg' secrets.length = cfg ∧
    ∀ j : Nat,
      hasSection (removeLicenseFromConfigFile cfg' secrets.length)
        (apiName j) = false := by
  have hsegs := pySplit_generated secrets hnl
  unfold appendCredentials at hinj
  rw [hsegs, List.dropLast_concat] at hinj
  obtain ⟨added, rfl, hnames⟩ := processSegs_ok_shape hinj
  have hmain : removeLicenseFromConfigFile (cfg ++ added) secrets.length = cfg := by
    rw [removeLicense_eq_filter, List.filter_append]
    have hcfg : cfg.filter
        (fun s => (List.range secrets.length).all fun j => s.name ≠ apiName j) =
        cfg := by
      apply List.filter_eq_self.mpr
      intro s hs
      rw [List.all_eq_true]
      intro j _hj
      have hne : s.name ≠ apiName j := by
        intro heq
        have hh : hasSection cfg (apiName j) = true := by
          rw [hasSection_mem, ← heq]
          exact List.mem_map_of_mem _ hs
        rw [hclean j] at hh
        cases hh
      simp [hne]
    have hadded : added.filter
        (fun s => (List.range secrets.length).all fun j => s.name ≠ apiName j) =
        [] := by
      rw [List.filter_eq_nil_iff]
      intro s hs
      have hmem : s.name ∈ (contentStrsFrom 0 secrets).map secName := by
        rw [← hnames]
        exact List.mem_map_of_mem _ hs
      obtain ⟨j, _hj0, hjlt, hjeq⟩ := contentStrsFrom_names 0 hnl s.name hmem
      rw [Nat.zero_add] at hjlt
      simp only [List.all_eq_true, not_forall]
      exact ⟨j, List.mem_range.mpr hjlt, by simp [hjeq]⟩
    rw [hcfg, hadded, List.append_nil]
  refine ⟨hmain, ?_⟩
  rw [hmain]
  exact hclean

/-- C2 (counterexample to the claim as stated): a file that already holds a
`parameters.api5` section.  Injecting one credential block succeeds (only
`parameters.api0` is added) and stripping with `count = 1` removes it, yet
the file still contains a `parameters.apiN` section (`parameters.api5`), so
the round trip does not leave zero such sections. -/
theorem c2_roundtrip_counterexample :
    appendCredentials [⟨"parameters.api5", []⟩]
        (generateAdditionalContent [("u", "p")]) =
      .ok [⟨"parameters.api5", []⟩,
           ⟨"parameters.api0", [("api_url", "u"), ("api_key", "p")]⟩] ∧
    removeLicenseFromConfigFile
        [⟨"parameters.api5", []⟩,
         ⟨"parameters.api0", [("api_url", "u"), ("api_key", "p")]⟩] 1 =
      [⟨"parameters.api5", []⟩] ∧
    hasSection
      (removeLicenseFromConfigFile
        [⟨"parameters.api5", []⟩,
         ⟨"parameters.api0", [("api_url", "u"), ("api_key", "p")]⟩] 1)
      (apiName 5) = true := by
  decide

/-- Witness for the amended C2 on a clean one-section config with one
secret. -/
theorem c2_roundtrip_clean_witness :
    removeLicenseFromConfigFile
        [⟨"selection", [("date", "x")]⟩,
         ⟨"parameters.api0", [("api_url", "u"), ("api_key", "p")]⟩]
        ([("u", "p")] : List (String × String)).length =
      [⟨"selection", [("date", "x")]⟩] ∧
    hasSection
      (removeLicenseFromConfigFile
        [⟨"selection", [("date", "x")]⟩,
         ⟨"parameters.api0", [("api_url", "u"), ("api_key", "p")]⟩]
        ([("u", "p")] : List (String × String)).length)
      (apiName 7) = false := by
  have hclean : ∀ j : Nat,
      hasSection [⟨"selection", [("date", "x")]⟩] (apiName j) = false := by
    intro j
    have hne := ne_apiName_of_head (s := "selection") (by decide) j
    simp [hasSection, hne]
  have H := c2_roundtrip_clean [⟨"selection", [("date", "x")]⟩] [("u", "p")]
    [⟨"selection", [("date", "x")]⟩,
     ⟨"parameters.api0", [("api_url", "u"), ("api_key", "p")]⟩]
    hclean (by decide) (by decide)
  exact ⟨H.1, H.2 7⟩

/-! ## C4: which selection fields each mutated file receives -/

theorem appendCredentials_get {cfg c' : Config} {text : String}
    (h : appendCredentials cfg text = .ok c') {n : String}
    (hn : hasSection cfg n = true) (k : String) :
    getOpt c' n k = getOpt cfg n k := by
  unfold appendCredentials at h
  exact processSegs_get h hn k

/-- The `temp_path` stage touches only the `parameters` section and keeps
the section-name list. -/
theorem applyTempPath_ok {cfg c1 : Config} {temp_path : Option String}
    (h : applyTempPath cfg temp_path = .ok c1) :
    c1.map CfgSection.name = cfg.map CfgSection.name ∧
    ∀ n k, n ≠ "parameters" → getOpt c1 n k = getOpt cfg n k := by
  cases temp_path with
  | none =>
    injection h with h
    subst h
    exact ⟨rfl, fun _ _ _ => rfl⟩
  | some tp =>
    simp only [applyTempPath] at h
    cases hg : getOpt cfg "parameters" "target_path" with
    | error e =>
      rw [hg, except_bind_error] at h
      cases h
    | ok target =>
      simp only [hg, except_bind_ok] at h
      exact ⟨setOpt_ok_names h, fun n k hn => setOpt_get_other_sec h n hn k⟩

/-- The selection stage in year-wise form: it sets `year`, `month`, `day`,
leaves every other `selection` option unchanged, keeps the section names,
and `selection` exists. -/
theorem setSelection_true_ok {cfg c2 : Config} {field_name : String}
    {args : ConfigArgs} (hyw : args.year_wise_date = true)
    (h : setSelection cfg field_name args = .ok c2) :
    getOpt c2 "selection" "year" = .ok args.sl_year ∧
    getOpt c2 "selection" "month" = .ok args.sl_month ∧
    getOpt c2 "selection" "day" = .ok "all" ∧
    (∀ k2, pyLower k2 ≠ "year" → pyLower k2 ≠ "month" → pyLower k2 ≠ "day" →
      getOpt c2 "selection" k2 = getOpt cfg "selection" k2) ∧
    hasSection c2 "selection" = true := by
  unfold setSelection at h
  rw [hyw, if_pos rfl] at h
  cases h1 : setOpt cfg "selection" "year" args.sl_year with
  | error e =>
    rw [h1, except_bind_error] at h
    cases h
  | ok ca =>
    rw [h1, except_bind_ok] at h
    cases h2 : setOpt ca "selection" "month" args.sl_month with
    | error e =>
      rw [h2, except_bind_error] at h
      cases h
    | ok cb =>
      rw [h2, except_bind_ok] at h
      have hlyear : pyLower "year" = "year" := by decide
      have hlmonth : pyLower "month" = "month" := by decide
      have hlday : pyLower "day" = "day" := by decide
      have hsec : hasSection c2 "selection" = true := by
        rw [hasSection_of_names_eq (setOpt_ok_names h)]
        exact setOpt_ok_hasSection h
      refine ⟨?_, ?_, ?_, ?_, hsec⟩
      · rw [setOpt_get_other_key h "year" (by rw [hlyear, hlday]; decide),
          setOpt_get_other_key h2 "year" (by rw [hlyear, hlmonth]; decide)]
        exact setOpt_get_same h1 "year" rfl
      · rw [setOpt_get_other_key h "month" (by rw [hlmonth, hlday]; decide)]
        exact setOpt_get_same h2 "month" rfl
      · exact setOpt_get_same h "day" rfl
      · intro k2 hk2y hk2m hk2d
        rw [setOpt_get_other_key h k2 (by rw [hlday]; exact hk2d),
          setOpt_get_other_key h2 k2 (by rw [hlmonth]; exact hk2m),
          setOpt_get_other_key h1 k2 (by rw [hlyear]; exact hk2y)]

/-- The selection stage in range form: it sets `field_name` to the
`first/to/last` range string and `selection` exists. -/
theorem setSelection_false_ok {cfg c2 : Config} {field_name : String}
    {args : ConfigArgs} (hyw : args.year_wise_date = false)
    (h : setSelection cfg field_name args = .ok c2) :
    getOpt c2 "selection" field_name =
      .ok (isoString args.first_day ++ "/to/" ++ isoString args.last_day) ∧
    hasSection c2 "selection" = true := by
  unfold setSelection at h
  rw [hyw] at h
  simp only [Bool.false_eq_true, if_false] at h
  have hsec : hasSection c2 "selection" = true := by
    rw [hasSection_of_names_eq (setOpt_ok_names h)]
    exact setOpt_ok_hasSection h
  exact ⟨setOpt_get_same h field_name rfl, hsec⟩

/-- C4: a mutated file whose name contains `lnsp`, `zs` or `sfc` gets
`selection.year/month/day` (and its date-range field is never written);
every other eligible file instead gets
`selection.<field_name> = "<first_day>/to/<last_day>"` with both dates in
ISO `YYYY-MM-DD` form. -/
theorem c4_selection_fields (fn field_name additional_content : String)
    (w : MonthDates) (temp_path : Option String) (cfg cfg' : Config)
    (hok : newConfigFile cfg field_name additional_content (argsFor fn w)
      temp_path = .ok cfg')
    (hy : pyLower field_name ≠ "year") (hm : pyLower field_name ≠ "month")
    (hd : pyLower field_name ≠ "day") :
    (isYearWise fn = true →
      getOpt cfg' "selection" "year" = .ok w.sl_year ∧
      getOpt cfg' "selection" "month" = .ok w.sl_month ∧
      getOpt cfg' "selection" "day" = .ok "all" ∧
      getOpt cfg' "selection" field_name = getOpt cfg "selection" field_name) ∧
    (isYearWise fn = false →
      getOpt cfg' "selection" field_name =
        .ok (isoString w.first_day ++ "/to/" ++ isoString w.last_day)) := by
  unfold newConfigFile at hok
  cases hstage1 : applyTempPath cfg temp_path with
  | error e =>
    rw [hstage1, except_bind_error] at hok
    cases hok
  | ok c1 =>
    rw [hstage1, except_bind_ok] at hok
    obtain ⟨_hnames1, hget1⟩ := applyTempPath_ok hstage1
    cases hstage2 : setSelection c1 field_name (argsFor fn w) with
    | error e =>
      rw [hstage2, except_bind_error] at hok
      cases hok
    | ok c2 =>
      rw [hstage2, except_bind_ok] at hok
      constructor
      · intro hyw
        have hyw' : (argsFor fn w).year_wise_date = true := hyw
        obtain ⟨hgy, hgm, hgd, hother, hsec⟩ :=
          setSelection_true_ok hyw' hstage2
        refine ⟨?_, ?_, ?_, ?_⟩
        · rw [appendCredentials_get hok hsec]
          exact hgy
        · rw [appendCredentials_get hok hsec]
          exact hgm
        · rw [appendCredentials_get hok hsec]
          exact hgd
        · rw [appendCredentials_get hok hsec, hother field_name hy hm hd,
            hget1 "selection" field_name (by decide)]
      · intro hyw
        have hyw' : (argsFor fn w).year_wise_date = false := hyw
        obtain ⟨hgf, hsec⟩ := setSelection_false_ok hyw' hstage2
        rw [appendCredentials_get hok hsec]
        exact hgf

/-- Witness for C4: a year-wise file name (`era5_sfc.cfg`) with a concrete
window; the mutation writes the triple and leaves the `date` field
untouched. -/
theorem c4_selection_fields_witness :
    (newConfigFile [⟨"selection", [("date", "x")]⟩] "date" ""
        (argsFor "era5_sfc.cfg"
          ⟨⟨2023, 12, 1⟩, ⟨2023, 12, 31⟩, "2023", "12"⟩) none =
      .ok [⟨"selection",
        [("date", "x"), ("year", "2023"), ("month", "12"), ("day", "all")]⟩]) ∧
    (pyLower "date" ≠ "year" ∧ pyLower "date" ≠ "month" ∧
      pyLower "date" ≠ "day" ∧ isYearWise "era5_sfc.cfg" = true) ∧
    getOpt [⟨"selection",
        [("date", "x"), ("year", "2023"), ("month", "12"), ("day", "all")]⟩]
      "selection" "year" = .ok "2023" ∧
    getOpt [⟨"selection",
        [("date", "x"), ("year", "2023"), ("month", "12"), ("day", "all")]⟩]
      "selection" "date" =
      getOpt [⟨"selection", [("date", "x")]⟩] "selection" "date" := by
  refine ⟨by decide, ⟨by decide, by decide, by decide, by decide⟩, ?_⟩
  have H := (c4_selection_fields "era5_sfc.cfg" "date" ""
    ⟨⟨2023, 12, 1⟩, ⟨2023, 12, 31⟩, "2023", "12"⟩ none
    [⟨"selection", [("date", "x")]⟩]
    [⟨"selection",
      [("date", "x"), ("year", "2023"), ("month", "12"), ("day", "all")]⟩]
    (by decide) (by decide) (by decide) (by decide)).1 (by decide)
  exact ⟨H.1, H.2.2.2⟩

end ArcoEra5
